import Mathlib

/-!
Shallow embedding of `notebooks/utils.py` from the rapids-single-cell-examples
repository, together with theorems checking the natural-language specification
against the code.  Machine floats are idealised as exact rationals; where a
claim is about float-division blowup the scalar type `FloatQ` carries explicit
infinity/NaN values with IEEE-like propagation (restricted to the nonnegative
operands occurring in these count matrices).  The transcendental `log1p` is
kept abstract as a function parameter, since no claim depends on its numeric
value.  Dense matrices are row lists; a CSR row's degree (count of stored
entries) is its count of nonzero entries, no explicit zeros being stored.
-/

/- ==================================================================
   Definitions
   ================================================================== -/

/- `overlap` (utils.py lines 104-120).  A gene record is the 4-tuple
(chromosome, start, end, strand); a fragment is the 3-tuple
(chromosome, start, end).  The Python function returns True / False / None,
embedded as `Option Bool` (`none` = falling off the end of the function). -/

structure Gene where
  chrom : String
  start : Int
  stop : Int
  strand : String

structure Fragment where
  chrom : String
  start : Int
  stop : Int

/-- The strand-dependent swap at the top of `overlap`:
`if gene[3] == 'rev': upstream, downstream = downstream, upstream`. -/
def swapUD (strand : String) (up down : Int) : Int × Int :=
  if strand = "rev" then (down, up) else (up, down)

/-- First condition of `overlap` (comment in source: "peak start in gene"):
`gene[2] + downstream >= fragment[1] and gene[1] - upstream <= fragment[1]`. -/
def overlapCond1 (g : Gene) (f : Fragment) (u d : Int) : Bool :=
  decide (g.stop + d ≥ f.start) && decide (g.start - u ≤ f.start)

/-- Second condition of `overlap` ("peak end in gene"):
`gene[2] + downstream >= fragment[2] and gene[1] - upstream <= fragment[2]`. -/
def overlapCond2 (g : Gene) (f : Fragment) (u d : Int) : Bool :=
  decide (g.stop + d ≥ f.stop) && decide (g.start - u ≤ f.stop)

/-- Third condition of `overlap` ("gene entirely within peak"):
`gene[1] - upstream >= fragment[1] and gene[2] + downstream <= fragment[2]`. -/
def overlapCond3 (g : Gene) (f : Fragment) (u d : Int) : Bool :=
  decide (g.start - u ≥ f.start) && decide (g.stop + d ≤ f.stop)

/-- `overlap(gene, fragment, upstream, downstream)` from utils.py.  The Python
defaults are `upstream=10000, downstream=0`; here they are passed explicitly. -/
def overlap (g : Gene) (f : Fragment) (up down : Int) : Option Bool :=
  let p := swapUD g.strand up down
  if g.chrom ≠ f.chrom then some false
  else if overlapCond1 g f p.1 p.2 then some true
  else if overlapCond2 g f p.1 p.2 then some true
  else if overlapCond3 g f p.1 p.2 then some true
  else none

/- `pca` batching (utils.py lines 50-59).  Only the batching / row-population
structure is modelled: which rows of the `(R, n_components)` zero-initialised
embeddings matrix the transform loop writes.  `batch_size = int(R / B)` is
floor division for the nonnegative sizes involved. -/

/-- `start_idx = batch * batch_size` for batch `b`. -/
def pcaStartIdx (R B b : Nat) : Nat := b * (R / B)

/-- `end_idx = start_idx + batch_size`, then
`if adata.X.shape[0] - end_idx < batch_size: end_idx = adata.X.shape[0]`.
(Within the loop `end_idx ≤ R` always holds, so Nat subtraction is exact.) -/
def pcaEndIdx (R B b : Nat) : Nat :=
  let e := b * (R / B) + R / B
  if R - e < R / B then R else e

/-- `embeddings[start_idx:end_idx, :] = ...`: mark rows `[s, e)` as written. -/
def writeRows (v : List Bool) (s e : Nat) : List Bool :=
  v.mapIdx (fun i x => if s ≤ i ∧ i < e then true else x)

/-- Which rows of the zero-initialised embeddings matrix have been written
after the `for batch in range(n_batches)` loop of `pca`. -/
def pcaPopulated (R B : Nat) : List Bool :=
  (List.range B).foldl (fun v b => writeRows v (pcaStartIdx R B b) (pcaEndIdx R B b))
    (List.replicate R false)

/-- The widths of the slices the transform loop writes. -/
def pcaBatchWidths (R B : Nat) : List Nat :=
  (List.range B).map (fun b => pcaEndIdx R B b - pcaStartIdx R B b)

/- Per-cell degree filter (utils.py lines 203-205) on dense row lists. -/

/-- Nonzero degree of one row. -/
def nnz (r : List ℚ) : Nat := (r.filter (fun x => decide (x ≠ 0))).length

/-- `query = (min_genes_per_cell <= degrees) & (degrees <= max_genes_per_cell)`
followed by row selection `partial_sparse_array[query]`. -/
def cellDegreeFilter (mn mx : Nat) (m : List (List ℚ)) : List (List ℚ) :=
  m.filter (fun r => decide (mn ≤ nnz r) && decide (nnz r ≤ mx))

/- `sum_csr_matrix` (utils.py lines 134-157).  The function's first statement
rebinds its `client` parameter to the process-wide default distributed client
before any work is scheduled.  Clients are modelled by an identifier; each
scheduled task is recorded as a `SubmitRecord` carrying the worker it was
pinned to, the identifier of the client that scheduled it, and the computed
partial sum, so that the result genuinely depends on whichever client is used
for scheduling. -/

/-- Number of columns of a row-list matrix. -/
def ncolsQ (m : List (List ℚ)) : Nat := (m.headD []).length

/-- `__sum(x) = x.sum(axis=axis)`: axis 0 gives one row of column sums, any
other axis gives one column of row sums. -/
def sumAxis (axis : Nat) (m : List (List ℚ)) : List (List ℚ) :=
  if axis = 0 then [(List.range (ncolsQ m)).map (fun j => (m.map (fun r => r.getD j 0)).sum)]
  else m.map (fun r => [r.sum])

/-- One `client.submit(__sum, part, workers=[w], pure=False)` call: the worker
the task is pinned to, the client that scheduled it, and the resulting value. -/
structure SubmitRecord where
  worker : Nat
  clientId : Nat
  value : List (List ℚ)

/-- `dask.array.concatenate(objs, axis=axis)`. -/
def concatAxis (axis : Nat) (ms : List (List (List ℚ))) : List (List ℚ) :=
  if axis = 0 then ms.flatten
  else
    match ms with
    | [] => []
    | m :: rest => rest.foldl (fun acc n => List.zipWith (fun a b => a ++ b) acc n) m

/-- `sum_csr_matrix(csr_matrix, client, axis=0)`: its first statement is
`client = dask.distributed.default_client()`, so the parameter `client` is
shadowed before any task is submitted.  `parts` is the partition-to-worker
assignment produced by `_extract_partitions`. -/
def sum_csr_matrix (defaultClientId : Nat) (parts : List (Nat × List (List ℚ)))
    (client : Nat) (axis : Nat) : List SubmitRecord × List (List ℚ) :=
  let client := defaultClientId
  let futures := parts.map (fun p => SubmitRecord.mk p.1 client (sumAxis axis p.2))
  (futures, concatAxis axis (futures.map SubmitRecord.value))

/- `_read_partition_to_sparse_matrix` (utils.py lines 184-205).  The on-disk
structure holds the parallel CSR arrays `/X/data`, `/X/indices`, `/X/indptr`
of the full matrix. -/

/-- Python slice `l[s:e]` (for ascending in-range bounds). -/
def pySlice {α : Type} (l : List α) (s e : Nat) : List α := (l.drop s).take (e - s)

structure DiskCSR where
  data : List ℚ
  indices : List Nat
  indptr : List Nat

/-- Well-formed on-disk CSR: monotone row pointers whose last entry is the
length of `data`, and `indices` parallel to `data`. -/
def DiskCSRWF (c : DiskCSR) : Prop :=
  (∀ j < c.indptr.length, ∀ i ≤ j, c.indptr.getD i 0 ≤ c.indptr.getD j 0) ∧
  c.indptr.getD (c.indptr.length - 1) 0 = c.data.length ∧
  c.indices.length = c.data.length

/-- `start_ptr = indptrs[batch_start]`. -/
def startPtr (c : DiskCSR) (batchStart : Nat) : Nat := c.indptr.getD batchStart 0

/-- `end_ptr = indptrs[batch_end]`. -/
def endPtr (c : DiskCSR) (batchEnd : Nat) : Nat := c.indptr.getD batchEnd 0

/-- `sub_data = h5f['/X/data'][start_ptr:end_ptr]`. -/
def subData (c : DiskCSR) (bs be : Nat) : List ℚ :=
  pySlice c.data (startPtr c bs) (endPtr c be)

/-- `sub_indices = h5f['/X/indices'][start_ptr:end_ptr]`. -/
def subIndices (c : DiskCSR) (bs be : Nat) : List Nat :=
  pySlice c.indices (startPtr c bs) (endPtr c be)

/-- `sub_indptrs = indptrs[batch_start:(batch_end + 1)]`. -/
def subIndptrsRaw (c : DiskCSR) (bs be : Nat) : List Nat :=
  pySlice c.indptr bs (be + 1)

/-- `sub_indptrs = sub_indptrs - sub_indptrs[0]` (rebase to start at zero). -/
def subIndptrs (c : DiskCSR) (bs be : Nat) : List Nat :=
  (subIndptrsRaw c bs be).map (fun x => x - (subIndptrsRaw c bs be).headD 0)

/-- The reconstructed partition
`cp.sparse.csr_matrix((sub_data, sub_indices, sub_indptrs), shape=(batch_end - batch_start, total_cols))`. -/
structure PartCSR where
  data : List ℚ
  indices : List Nat
  indptr : List Nat
  shape : Nat × Nat

def partialSparseArray (c : DiskCSR) (totalCols bs be : Nat) : PartCSR :=
  { data := subData c bs be
    indices := subIndices c bs be
    indptr := subIndptrs c bs be
    shape := (be - bs, totalCols) }

/-- `cp.diff`: consecutive differences. -/
def diffList (l : List Nat) : List Nat := List.zipWith (fun a b => b - a) l l.tail

/-- `degrees = cp.diff(partial_sparse_array.indptr)`. -/
def csrDegrees (c : DiskCSR) (bs be : Nat) : List Nat := diffList (subIndptrs c bs be)

/-- Indices of the rows selected by `partial_sparse_array[query]` where
`query = (min_genes_per_cell <= degrees) & (degrees <= max_genes_per_cell)`. -/
def keptRows (c : DiskCSR) (bs be mn mx : Nat) : List Nat :=
  (List.range (be - bs)).filter
    (fun i => decide (mn ≤ (csrDegrees c bs be).getD i 0) &&
              decide ((csrDegrees c bs be).getD i 0 ≤ mx))

/- `tf_idf` / `logtf_idf` (utils.py lines 68-101) over the float-like scalar
`FloatQ`.  Input count matrices are rational row lists; the normalized output
entries live in `FloatQ` because the row/column factors come from float
division, which can blow up. -/

inductive FloatQ where
  | nan : FloatQ
  | inf : FloatQ
  | fin : ℚ → FloatQ
deriving DecidableEq

/-- Float multiplication on nonnegative-style values (signs are irrelevant to
the nonnegative count data these functions receive). -/
def FloatQ.mul : FloatQ → FloatQ → FloatQ
  | .nan, _ => .nan
  | _, .nan => .nan
  | .inf, .inf => .inf
  | .inf, .fin b => if b = 0 then .nan else .inf
  | .fin a, .inf => if a = 0 then .nan else .inf
  | .fin a, .fin b => .fin (a * b)

/-- Float division on nonnegative-style values: a nonzero finite value divided
by zero is infinity, `0/0` is NaN. -/
def FloatQ.div : FloatQ → FloatQ → FloatQ
  | .nan, _ => .nan
  | _, .nan => .nan
  | .inf, .inf => .nan
  | .inf, .fin _ => .inf
  | .fin _, .inf => .fin 0
  | .fin a, .fin b => if b = 0 then (if a = 0 then .nan else .inf) else .fin (a / b)

/-- `np.log1p` lifted to `FloatQ`, with the finite part abstract
(`log1p(inf) = inf`, `log1p(nan) = nan`). -/
def log1pF (log1p : ℚ → ℚ) : FloatQ → FloatQ
  | .nan => .nan
  | .inf => .inf
  | .fin q => .fin (log1p q)

/-- `peak_counts = np.array((filtered_cells > 0).sum(axis=0)).ravel()`:
number of rows with a positive entry in column `j`. -/
def peakCount (m : List (List ℚ)) (j : Nat) : Nat :=
  (m.filter (fun r => decide (0 < r.getD j 0))).length

/-- `log_inv_peak_freq = np.log1p(filtered_cells.shape[0] / peak_counts)`,
the column factor shared by `tf_idf` and `logtf_idf`. -/
def logInvPeakFreq (log1p : ℚ → ℚ) (m : List (List ℚ)) (j : Nat) : FloatQ :=
  log1pF log1p (FloatQ.div (.fin (m.length : ℚ)) (.fin (peakCount m j : ℚ)))

/-- `inv_sums = 1 / np.array(filtered_cells.sum(axis=1)).ravel()`:
the per-row factor of `tf_idf`. -/
def invSum (r : List ℚ) : FloatQ := FloatQ.div (.fin 1) (.fin r.sum)

/-- `log_inv_sums = np.log1p(pseudocount / ...sum(axis=1))`:
the per-row factor of `logtf_idf`. -/
def logInvSum (log1p : ℚ → ℚ) (pseudocount : ℚ) (r : List ℚ) : FloatQ :=
  log1pF log1p (FloatQ.div (.fin pseudocount) (.fin r.sum))

/-- `tf_idf(filtered_cells)`: multiply by the row factor, then by the column
factor (numpy broadcasting applied entrywise). -/
def tf_idf (log1p : ℚ → ℚ) (m : List (List ℚ)) : List (List FloatQ) :=
  m.map (fun r => r.mapIdx (fun j x =>
    FloatQ.mul (FloatQ.mul (.fin x) (invSum r)) (logInvPeakFreq log1p m j)))

/-- `logtf_idf(filtered_cells, pseudocount)`: same, with the smoothed row
factor. -/
def logtf_idf (log1p : ℚ → ℚ) (pseudocount : ℚ) (m : List (List ℚ)) : List (List FloatQ) :=
  m.map (fun r => r.mapIdx (fun j x =>
    FloatQ.mul (FloatQ.mul (.fin x) (logInvSum log1p pseudocount r)) (logInvPeakFreq log1p m j)))

/- `filter_peaks` (utils.py lines 123-131). -/

/-- `peak_frequency = np.array(peak_occurrences / adata.X.shape[0]).flatten()`. -/
def peakFrequency (m : List (List ℚ)) (j : Nat) : ℚ :=
  (peakCount m j : ℚ) / (m.length : ℚ)

/-- The per-column frequency vector. -/
def freqList (m : List (List ℚ)) : List ℚ :=
  (List.range (ncolsQ m)).map (peakFrequency m)

/-- `np.argsort(peak_frequency)`: indices sorted ascending by frequency,
ties kept in index order (stable sort). -/
def argsortAsc (xs : List ℚ) : List Nat :=
  List.insertionSort (fun i j => xs.getD i 0 ≤ xs.getD j 0) (List.range xs.length)

/-- Python slice `l[-n:]`.  Note `l[-0:]` is `l[0:]`, the whole list. -/
def pyTailSlice {α : Type} (l : List α) (n : Nat) : List α :=
  if n = 0 then l else l.drop (l.length - n)

/-- `use = frequent_peak_idxs[-n_top_peaks:]`. -/
def filter_peaks_use (m : List (List ℚ)) (nTop : Nat) : List Nat :=
  pyTailSlice (argsortAsc (freqList m)) nTop

/-- `return adata[:, use]`: the column slice of the input. -/
def filter_peaks (m : List (List ℚ)) (nTop : Nat) : List (List ℚ) :=
  m.map (fun r => (filter_peaks_use m nTop).map (fun j => r.getD j 0))

/- `read_with_filter` gene-masking tail (utils.py lines 234-243), on
natural-number count matrices (the h5ad matrices read here are nonnegative
integer counts stored as floats). -/

/-- Nonzero degree of a count row. -/
def degreeN (r : List Nat) : Nat := (r.filter (fun x => decide (0 < x))).length

/-- The per-partition cell filter of `_read_partition_to_sparse_matrix`, on
count rows. -/
def cellFilterN (mn mx : Nat) (m : List (List Nat)) : List (List Nat) :=
  m.filter (fun r => decide (mn ≤ degreeN r) && decide (degreeN r ≤ mx))

/-- Column `j` of `sum_csr_matrix(...).compute().sum(axis=0)`: the summed
value of column `j` over all surviving rows. -/
def colValueSum (m : List (List Nat)) (j : Nat) : Nat :=
  (m.map (fun r => r.getD j 0)).sum

/-- `query = gene_wise_cell_cnt >= min_cells` at column `j`. -/
def geneQuery (m : List (List Nat)) (minCells j : Nat) : Bool :=
  decide (minCells ≤ colValueSum m j)

/-- The boolean column-retention mask over all `total_cols` columns
(`total_cols = genes.shape[0]` in the source). -/
def geneMask (m : List (List Nat)) (minCells totalCols : Nat) : List Bool :=
  (List.range totalCols).map (geneQuery m minCells)

/-- Boolean-mask selection, as in `genes[query]` and `[:, query]`. -/
def applyMask {α : Type} (l : List α) (mask : List Bool) : List α :=
  (l.zip mask).filterMap (fun p => if p.2 then some p.1 else none)

/-- The filtering tail of `read_with_filter`: apply the cell filter, compute
the gene mask from the surviving rows, apply the same mask to the gene-label
list and to the matrix's columns, and return the pair. -/
def read_with_filter (genes : List String) (m : List (List Nat)) (mn mx minCells : Nat) :
    List (List Nat) × List String :=
  let filt := cellFilterN mn mx m
  let mask := geneMask filt minCells genes.length
  (filt.map (fun r => applyMask r mask), applyMask genes mask)

/- ==================================================================
   Helper lemmas
   ================================================================== -/

theorem pySlice_length {α : Type} (l : List α) (s e : Nat) (h : e ≤ l.length) :
    (pySlice l s e).length = e - s := by
  simp [pySlice]
  omega

theorem pySlice_getElem? {α : Type} (l : List α) (s e i : Nat) (h : i < e - s) :
    (pySlice l s e)[i]? = l[s + i]? := by
  unfold pySlice
  rw [List.getElem?_take_of_lt h, List.getElem?_drop]

theorem pySlice_getD {α : Type} (l : List α) (s e i : Nat) (d : α) (h : i < e - s) :
    (pySlice l s e).getD i d = l.getD (s + i) d := by
  simp only [List.getD_eq_getElem?_getD, pySlice_getElem? l s e i h]

theorem getD_map_of_lt {α β : Type} (f : α → β) (l : List α) (i : Nat) (d : β) (d' : α)
    (h : i < l.length) :
    (l.map f).getD i d = f (l.getD i d') := by
  simp [List.getD_eq_getElem?_getD, List.getElem?_eq_getElem h]

theorem getD_mapIdx_of_lt {α β : Type} (f : Nat → α → β) (l : List α) (i : Nat) (d : β)
    (d' : α) (h : i < l.length) :
    (l.mapIdx f).getD i d = f i (l.getD i d') := by
  simp [List.getD_eq_getElem?_getD, List.getElem?_eq_getElem h,
    List.getElem?_mapIdx, h]

theorem applyMask_length {α : Type} (l : List α) (mask : List Bool)
    (h : mask.length = l.length) :
    (applyMask l mask).length = (mask.filter id).length := by
  induction l generalizing mask with
  | nil =>
    have h0 : mask = [] := by simpa using h
    simp [applyMask, h0]
  | cons a l ih =>
    cases mask with
    | nil => simp at h
    | cons b mask =>
      have hb := ih mask (by simpa using h)
      cases b <;> simp [applyMask, List.filterMap_cons] at hb ⊢ <;> simpa [applyMask] using hb

/- ==================================================================
   Claim theorems
   ================================================================== -/

/-- C1 (code_bug evidence): for a matrix with `R = 5` rows and `n_batches = 3`,
the `pca` transform loop writes only rows 0,1,2 — rows 3 and 4 are left at
their zero initialization — and the batch widths are 1,1,1, summing to 3, not
5.  The widening test `R - end_idx < batch_size` fails to absorb the remainder
whenever `R % B ≥ R / B`, contradicting the documented guarantee that the
embeddings matrix is fully populated with batch widths summing to `R`. -/
theorem pca_batch_bug_at_5_3 :
    pcaPopulated 5 3 = [true, true, true, false, false] ∧
    pcaBatchWidths 5 3 = [1, 1, 1] ∧ (pcaBatchWidths 5 3).sum = 3 := by
  decide

/-- C2 (counterexample): the spec's third `overlap` example — gene
`(chr1, 100, 200, 'rev')` with `upstream=50, downstream=0` and fragment
`(chr1, 60, 90)` — does NOT return `True`: after the reverse-strand swap the
padded gene span is `[100, 250]`, which does not meet the fragment, so the
function falls through and returns `None`. -/
theorem overlap_spec_examples_cex :
    overlap ⟨"chr1", 100, 200, "rev"⟩ ⟨"chr1", 60, 90⟩ 50 0 ≠ some true := by
  decide

/-- C2 (amended): the first two spec examples evaluate as stated
(`some true` and `some false`), and the third example returns `none` (no
match), not `True`, because the reverse-strand swap pads the high-coordinate
end of the gene. -/
theorem overlap_spec_examples_amended :
    overlap ⟨"chr1", 100, 200, "fwd"⟩ ⟨"chr1", 150, 160⟩ 10000 0 = some true ∧
    overlap ⟨"chr1", 100, 200, "fwd"⟩ ⟨"chr2", 150, 160⟩ 10000 0 = some false ∧
    overlap ⟨"chr1", 100, 200, "rev"⟩ ⟨"chr1", 60, 90⟩ 50 0 = none := by
  refine ⟨by decide, by decide, by decide⟩

/-- C6: `overlap` returns `some false` when the chromosomes differ; returns
`some true` when the chromosomes match and at least one of the three
containment conditions (with upstream/downstream swapped on the reverse
strand) holds; and returns `none` — not `some false` — when the chromosomes
match but none of the three conditions holds. -/
theorem overlap_tristate (g : Gene) (f : Fragment) (up down : Int) :
    (g.chrom ≠ f.chrom → overlap g f up down = some false) ∧
    (g.chrom = f.chrom →
      (overlapCond1 g f (swapUD g.strand up down).1 (swapUD g.strand up down).2 ||
       overlapCond2 g f (swapUD g.strand up down).1 (swapUD g.strand up down).2 ||
       overlapCond3 g f (swapUD g.strand up down).1 (swapUD g.strand up down).2) = true →
      overlap g f up down = some true) ∧
    (g.chrom = f.chrom →
      (overlapCond1 g f (swapUD g.strand up down).1 (swapUD g.strand up down).2 ||
       overlapCond2 g f (swapUD g.strand up down).1 (swapUD g.strand up down).2 ||
       overlapCond3 g f (swapUD g.strand up down).1 (swapUD g.strand up down).2) = false →
      overlap g f up down = none ∧ overlap g f up down ≠ some false) := by
  unfold overlap
  refine ⟨fun hne => ?_, fun heq hc => ?_, fun heq hc => ?_⟩
  · simp [hne]
  · simp only [Bool.or_eq_true] at hc
    rcases hc with (h1 | h2) | h3
    · simp [heq, h1]
    · cases hcc : overlapCond1 g f (swapUD g.strand up down).1 (swapUD g.strand up down).2 <;>
        simp [heq, hcc, h2]
    · cases hcc : overlapCond1 g f (swapUD g.strand up down).1 (swapUD g.strand up down).2 <;>
      cases hdd : overlapCond2 g f (swapUD g.strand up down).1 (swapUD g.strand up down).2 <;>
        simp [heq, hcc, hdd, h3]
  · simp only [Bool.or_eq_false_iff] at hc
    simp [heq, hc.1.1, hc.1.2, hc.2]

/-- Witness for C6: a concrete same-chromosome, no-condition instance on which
`overlap` returns `none` rather than `some false`. -/
theorem overlap_tristate_witness :
    (Gene.mk "chr1" 100 200 "fwd").chrom = (Fragment.mk "chr1" 300 400).chrom ∧
    (overlapCond1 ⟨"chr1", 100, 200, "fwd"⟩ ⟨"chr1", 300, 400⟩
        (swapUD "fwd" 0 0).1 (swapUD "fwd" 0 0).2 ||
     overlapCond2 ⟨"chr1", 100, 200, "fwd"⟩ ⟨"chr1", 300, 400⟩
        (swapUD "fwd" 0 0).1 (swapUD "fwd" 0 0).2 ||
     overlapCond3 ⟨"chr1", 100, 200, "fwd"⟩ ⟨"chr1", 300, 400⟩
        (swapUD "fwd" 0 0).1 (swapUD "fwd" 0 0).2) = false ∧
    overlap ⟨"chr1", 100, 200, "fwd"⟩ ⟨"chr1", 300, 400⟩ 0 0 = none :=
  ⟨by decide, by decide,
    ((overlap_tristate ⟨"chr1", 100, 200, "fwd"⟩ ⟨"chr1", 300, 400⟩ 0 0).2.2
      (by decide) (by decide)).1⟩

/-- C4: for every way of splitting a matrix's rows into contiguous partitions
(any `ps` with `ps.flatten` the whole matrix), concatenating the per-partition
outputs of the degree filter yields exactly the same rows, in the same order
(hence with the same row count), as applying the degree filter to the whole
matrix at once. -/
theorem cell_filter_partition_concat (mn mx : Nat) (ps : List (List (List ℚ))) :
    (ps.map (cellDegreeFilter mn mx)).flatten = cellDegreeFilter mn mx ps.flatten := by
  unfold cellDegreeFilter
  rw [List.filter_flatten]

/-- C10: `sum_csr_matrix` never uses its `client` parameter — for any two
client arguments, with the same partitioned matrix, default client and axis,
it schedules identical tasks and returns identical results, because the name
is immediately rebound to the process-wide default client. -/
theorem sum_csr_matrix_ignores_client (d : Nat) (parts : List (Nat × List (List ℚ)))
    (c1 c2 axis : Nat) :
    sum_csr_matrix d parts c1 axis = sum_csr_matrix d parts c2 axis := rfl

theorem diffList_getD (l : List Nat) (i : Nat) (h : i + 1 < l.length) :
    (diffList l).getD i 0 = l.getD (i + 1) 0 - l.getD i 0 := by
  unfold diffList
  simp [List.getD_eq_getElem?_getD, List.getElem?_zipWith', List.getElem?_tail,
    List.getElem?_eq_getElem (show i < l.length by omega), List.getElem?_eq_getElem h]

/-- C5: for a well-formed on-disk CSR structure and any row range
`[batch_start, batch_end)` within it, the partition reader's rebased
row-pointer slice has length `(batch_end - batch_start) + 1` and starts at 0;
the `data` and `indices` slices are cut exactly by the first and last pointer
values (their lengths are `end_ptr - start_ptr`); the reconstructed matrix has
shape `(batch_end - batch_start, total_cols)`; the row degrees computed from
the rebased pointers equal the original row-pointer deltas; and the retained
rows are exactly those whose degree `d` satisfies
`min_genes_per_cell ≤ d ≤ max_genes_per_cell`, both bounds inclusive. -/
theorem read_partition_csr_invariants (c : DiskCSR) (totalCols bs be mn mx : Nat)
    (hwf : DiskCSRWF c) (hbs : bs ≤ be) (hbe : be + 1 ≤ c.indptr.length) :
    (subIndptrs c bs be).length = (be - bs) + 1 ∧
    (subIndptrs c bs be).getD 0 1 = 0 ∧
    (subData c bs be).length = endPtr c be - startPtr c bs ∧
    (subIndices c bs be).length = endPtr c be - startPtr c bs ∧
    (partialSparseArray c totalCols bs be).shape = (be - bs, totalCols) ∧
    (∀ i < be - bs,
      (csrDegrees c bs be).getD i 0 =
        c.indptr.getD (bs + i + 1) 0 - c.indptr.getD (bs + i) 0) ∧
    (∀ i, i ∈ keptRows c bs be mn mx ↔
      i < be - bs ∧
      mn ≤ c.indptr.getD (bs + i + 1) 0 - c.indptr.getD (bs + i) 0 ∧
      c.indptr.getD (bs + i + 1) 0 - c.indptr.getD (bs + i) 0 ≤ mx) := by
  obtain ⟨hmono, hlast, hind⟩ := hwf
  have hraw_len : (subIndptrsRaw c bs be).length = (be - bs) + 1 := by
    rw [subIndptrsRaw, pySlice_length _ _ _ hbe]
    omega
  have hraw_getD : ∀ i, i < (be - bs) + 1 →
      (subIndptrsRaw c bs be).getD i 0 = c.indptr.getD (bs + i) 0 := by
    intro i hi
    rw [subIndptrsRaw, pySlice_getD _ _ _ _ _ (by omega)]
  have hraw_headD : (subIndptrsRaw c bs be).headD 0 = startPtr c bs := by
    have h0 := hraw_getD 0 (by omega)
    rw [List.getD_eq_getElem?_getD] at h0
    rw [List.headD_eq_head?_getD, List.head?_eq_getElem?, h0, startPtr, Nat.add_zero]
  have hsub_len : (subIndptrs c bs be).length = (be - bs) + 1 := by
    rw [subIndptrs, List.length_map, hraw_len]
  have hsub_getD : ∀ i, i < (be - bs) + 1 →
      (subIndptrs c bs be).getD i 0 = c.indptr.getD (bs + i) 0 - startPtr c bs := by
    intro i hi
    rw [subIndptrs, getD_map_of_lt _ _ _ _ 0 (by rw [hraw_len]; omega),
      hraw_getD i hi, hraw_headD]
  have hdeg : ∀ i < be - bs,
      (csrDegrees c bs be).getD i 0 =
        c.indptr.getD (bs + i + 1) 0 - c.indptr.getD (bs + i) 0 := by
    intro i hi
    rw [csrDegrees, diffList_getD _ _ (by rw [hsub_len]; omega),
      hsub_getD (i + 1) (by omega), hsub_getD i (by omega)]
    have h1 : startPtr c bs ≤ c.indptr.getD (bs + i) 0 :=
      hmono (bs + i) (by omega) bs (by omega)
    have h2 : c.indptr.getD (bs + i) 0 ≤ c.indptr.getD (bs + (i + 1)) 0 :=
      hmono (bs + (i + 1)) (by omega) (bs + i) (by omega)
    have h3 : bs + (i + 1) = bs + i + 1 := by omega
    rw [h3] at h2 ⊢
    omega
  have hdata_le : endPtr c be ≤ c.data.length := by
    have h1 : c.indptr.getD be 0 ≤ c.indptr.getD (c.indptr.length - 1) 0 :=
      hmono (c.indptr.length - 1) (by omega) be (by omega)
    rw [hlast] at h1
    exact h1
  refine ⟨hsub_len, ?_, ?_, ?_, rfl, hdeg, ?_⟩
  · rw [subIndptrs, getD_map_of_lt _ _ _ 1 0 (by rw [hraw_len]; omega),
      hraw_getD 0 (by omega), hraw_headD]
    simp [startPtr]
  · rw [subData, pySlice_length _ _ _ hdata_le]
  · rw [subIndices, pySlice_length _ _ _ (by rw [hind]; exact hdata_le)]
  · intro i
    simp only [keptRows, List.mem_filter, List.mem_range, Bool.and_eq_true,
      decide_eq_true_eq]
    constructor
    · rintro ⟨hi, h1, h2⟩
      exact ⟨hi, by rw [← hdeg i hi]; exact h1, by rw [← hdeg i hi]; exact h2⟩
    · rintro ⟨hi, h1, h2⟩
      exact ⟨hi, by rw [hdeg i hi]; exact h1, by rw [hdeg i hi]; exact h2⟩

/-- Witness for C5: a concrete 3-row, 3-column on-disk CSR
(`data = [1,2,3,4]`, `indices = [0,1,0,2]`, `indptr = [0,2,3,4]`), partition
`[1, 3)`, degree bounds `[1, 1]`: the hypotheses hold and the invariants
follow by the theorem. -/
theorem read_partition_csr_invariants_witness :
    DiskCSRWF ⟨[1, 2, 3, 4], [0, 1, 0, 2], [0, 2, 3, 4]⟩ ∧ 1 ≤ 3 ∧
    3 + 1 ≤ (DiskCSR.mk [1, 2, 3, 4] [0, 1, 0, 2] [0, 2, 3, 4]).indptr.length ∧
    (subIndptrs ⟨[1, 2, 3, 4], [0, 1, 0, 2], [0, 2, 3, 4]⟩ 1 3).length = (3 - 1) + 1 ∧
    (1 ∈ keptRows ⟨[1, 2, 3, 4], [0, 1, 0, 2], [0, 2, 3, 4]⟩ 1 3 1 1 ↔
      1 < 3 - 1 ∧
      1 ≤ (DiskCSR.mk [1, 2, 3, 4] [0, 1, 0, 2] [0, 2, 3, 4]).indptr.getD 3 0 -
            (DiskCSR.mk [1, 2, 3, 4] [0, 1, 0, 2] [0, 2, 3, 4]).indptr.getD 2 0 ∧
      (DiskCSR.mk [1, 2, 3, 4] [0, 1, 0, 2] [0, 2, 3, 4]).indptr.getD 3 0 -
            (DiskCSR.mk [1, 2, 3, 4] [0, 1, 0, 2] [0, 2, 3, 4]).indptr.getD 2 0 ≤ 1) :=
  ⟨⟨by decide, by decide, by decide⟩, by decide, by decide,
    (read_partition_csr_invariants ⟨[1, 2, 3, 4], [0, 1, 0, 2], [0, 2, 3, 4]⟩ 3 1 3 1 1
      ⟨by decide, by decide, by decide⟩ (by decide) (by decide)).1,
    (read_partition_csr_invariants ⟨[1, 2, 3, 4], [0, 1, 0, 2], [0, 2, 3, 4]⟩ 3 1 3 1 1
      ⟨by decide, by decide, by decide⟩ (by decide) (by decide)).2.2.2.2.2.2 1⟩

theorem getD_mem {α : Type} (l : List α) (i : Nat) (d : α) (h : i < l.length) :
    l.getD i d ∈ l := by
  rw [List.getD_eq_getElem?_getD, List.getElem?_eq_getElem h]
  exact List.getElem_mem h

theorem FloatQ.mul_fin (a b : ℚ) : FloatQ.mul (.fin a) (.fin b) = .fin (a * b) := rfl

theorem invSum_fin (r : List ℚ) (h : r.sum ≠ 0) : invSum r = .fin (1 / r.sum) := by
  simp [invSum, FloatQ.div, h]

theorem logInvSum_fin (log1p : ℚ → ℚ) (pc : ℚ) (r : List ℚ) (h : r.sum ≠ 0) :
    logInvSum log1p pc r = .fin (log1p (pc / r.sum)) := by
  simp [logInvSum, FloatQ.div, log1pF, h]

theorem logInvPeakFreq_fin (log1p : ℚ → ℚ) (m : List (List ℚ)) (j : Nat)
    (h : peakCount m j ≠ 0) :
    logInvPeakFreq log1p m j = .fin (log1p ((m.length : ℚ) / (peakCount m j : ℚ))) := by
  have hq : (peakCount m j : ℚ) ≠ 0 := Nat.cast_ne_zero.mpr h
  simp [logInvPeakFreq, FloatQ.div, log1pF, hq]

/-- C7: on a count matrix in which every row has a positive sum and every
column (touched by some row) has at least one positive entry, every entry of
`tf_idf`'s output is the finite value
`X[i,j] * (1 / rowSum(i)) * log1p(N / rowsWithNonzeroInColumn(j))`, and
`logtf_idf` differs only in replacing the row factor by
`log1p(pseudocount / rowSum(i))`. -/
theorem tf_idf_entry_formula (log1p : ℚ → ℚ) (pseudocount : ℚ) (m : List (List ℚ))
    (hrow : ∀ r ∈ m, 0 < r.sum)
    (hcol : ∀ r ∈ m, ∀ j < r.length, 0 < peakCount m j) :
    ∀ i, i < m.length → ∀ j, j < (m.getD i []).length →
      ((tf_idf log1p m).getD i []).getD j FloatQ.nan =
        FloatQ.fin ((m.getD i []).getD j 0 * (1 / (m.getD i []).sum) *
          log1p ((m.length : ℚ) / (peakCount m j : ℚ))) ∧
      ((logtf_idf log1p pseudocount m).getD i []).getD j FloatQ.nan =
        FloatQ.fin ((m.getD i []).getD j 0 * log1p (pseudocount / (m.getD i []).sum) *
          log1p ((m.length : ℚ) / (peakCount m j : ℚ))) := by
  intro i hi j hj
  have hrm : m.getD i [] ∈ m := getD_mem m i [] hi
  have hsum : (m.getD i []).sum ≠ 0 := ne_of_gt (hrow _ hrm)
  have hpc : peakCount m j ≠ 0 := Nat.pos_iff_ne_zero.mp (hcol _ hrm j hj)
  constructor
  · rw [tf_idf, getD_map_of_lt _ _ _ _ [] hi, getD_mapIdx_of_lt _ _ _ _ 0 hj,
      invSum_fin _ hsum, logInvPeakFreq_fin log1p m j hpc, FloatQ.mul_fin, FloatQ.mul_fin]
  · rw [logtf_idf, getD_map_of_lt _ _ _ _ [] hi, getD_mapIdx_of_lt _ _ _ _ 0 hj,
      logInvSum_fin log1p pseudocount _ hsum, logInvPeakFreq_fin log1p m j hpc,
      FloatQ.mul_fin, FloatQ.mul_fin]

/-- Witness for C7: the 1x1 count matrix `[[1]]` with `log1p` instantiated to
the identity and pseudocount 1. -/
theorem tf_idf_entry_formula_witness :
    (∀ r ∈ [[(1 : ℚ)]], 0 < r.sum) ∧
    (∀ r ∈ [[(1 : ℚ)]], ∀ j < r.length, 0 < peakCount [[(1 : ℚ)]] j) ∧
    (0 : Nat) < [[(1 : ℚ)]].length ∧ (0 : Nat) < ([[(1 : ℚ)]].getD 0 []).length ∧
    ((tf_idf id [[(1 : ℚ)]]).getD 0 []).getD 0 FloatQ.nan =
      FloatQ.fin (([[(1 : ℚ)]].getD 0 []).getD 0 0 * (1 / ([[(1 : ℚ)]].getD 0 []).sum) *
        id (([[(1 : ℚ)]].length : ℚ) / (peakCount [[(1 : ℚ)]] 0 : ℚ))) ∧
    ((logtf_idf id 1 [[(1 : ℚ)]]).getD 0 []).getD 0 FloatQ.nan =
      FloatQ.fin (([[(1 : ℚ)]].getD 0 []).getD 0 0 * id ((1 : ℚ) / ([[(1 : ℚ)]].getD 0 []).sum) *
        id (([[(1 : ℚ)]].length : ℚ) / (peakCount [[(1 : ℚ)]] 0 : ℚ))) :=
  ⟨by simp, by simp [peakCount], by decide, by decide,
    (tf_idf_entry_formula id 1 [[(1 : ℚ)]] (by simp) (by simp [peakCount]) 0 (by decide)
      0 (by decide)).1,
    (tf_idf_entry_formula id 1 [[(1 : ℚ)]] (by simp) (by simp [peakCount]) 0 (by decide)
      0 (by decide)).2⟩

/-- C8: if some column `j` has zero positive entries, `tf_idf` and
`logtf_idf` still run to completion and return a matrix of the input's shape;
the division `N / 0` propagates into the shared column factor as infinity
(NaN in the degenerate 0-row case), rather than raising an error. -/
theorem tf_idf_zero_column_total (log1p : ℚ → ℚ) (pseudocount : ℚ) (m : List (List ℚ))
    (j : Nat) (hj : peakCount m j = 0) :
    (logInvPeakFreq log1p m j = .inf ∨ logInvPeakFreq log1p m j = .nan) ∧
    (0 < m.length → logInvPeakFreq log1p m j = .inf) ∧
    (tf_idf log1p m).length = m.length ∧
    (∀ i < m.length, ((tf_idf log1p m).getD i []).length = (m.getD i []).length) ∧
    (logtf_idf log1p pseudocount m).length = m.length ∧
    (∀ i < m.length,
      ((logtf_idf log1p pseudocount m).getD i []).length = (m.getD i []).length) := by
  refine ⟨?_, fun hN => ?_, ?_, fun i hi => ?_, ?_, fun i hi => ?_⟩
  · by_cases hN : m.length = 0
    · right
      simp [logInvPeakFreq, FloatQ.div, log1pF, hj, hN]
    · left
      have : ((m.length : ℚ)) ≠ 0 := Nat.cast_ne_zero.mpr hN
      simp [logInvPeakFreq, FloatQ.div, log1pF, hj, this]
  · have : ((m.length : ℚ)) ≠ 0 := Nat.cast_ne_zero.mpr (Nat.pos_iff_ne_zero.mp hN)
    simp [logInvPeakFreq, FloatQ.div, log1pF, hj, this]
  · simp [tf_idf]
  · rw [tf_idf, getD_map_of_lt _ _ _ _ [] hi, List.length_mapIdx]
  · simp [logtf_idf]
  · rw [logtf_idf, getD_map_of_lt _ _ _ _ [] hi, List.length_mapIdx]

/-- Witness for C8: the 1x2 matrix `[[1, 0]]` whose column 1 has no positive
entry: the column factor is infinity and both outputs keep shape `(1, 2)`. -/
theorem tf_idf_zero_column_total_witness :
    peakCount [[(1 : ℚ), 0]] 1 = 0 ∧ (0 : Nat) < [[(1 : ℚ), 0]].length ∧
    logInvPeakFreq id [[(1 : ℚ), 0]] 1 = .inf ∧
    (tf_idf id [[(1 : ℚ), 0]]).length = [[(1 : ℚ), 0]].length :=
  ⟨by decide, by decide,
    (tf_idf_zero_column_total id 1 [[(1 : ℚ), 0]] 1 (by decide)).2.1 (by decide),
    (tf_idf_zero_column_total id 1 [[(1 : ℚ), 0]] 1 (by decide)).2.2.1⟩

/-- C3 (counterexample): with gene list `["g0"]`, matrix `[[2]]`, permissive
cell bounds and `min_cells = 2`, the returned gene list keeps `"g0"` even
though only ONE surviving row has a nonzero entry in that column (1 < 2): the
mask is computed from the column's summed VALUE (2 ≥ 2), not from the count of
nonzero rows, so the claim's general nonzero-row-count criterion is false. -/
theorem read_with_filter_mask_cex :
    (read_with_filter ["g0"] [[2]] 0 10 2).2 = ["g0"] ∧
    ((cellFilterN 0 10 [[2]]).filter (fun r => decide (0 < r.getD 0 0))).length < 2 := by
  decide

/-- C3 (amended): the gene mask keeps exactly the columns whose summed value
over the surviving rows is `≥ min_cells`; it is applied identically to the
gene-label list and to the matrix's columns; and when `min_cells = 1` (on
nonnegative integer count data) the returned gene-label list length equals the
number of columns with at least one nonzero entry among the surviving rows,
because a column's value sum is positive exactly when some surviving entry is. -/
theorem read_with_filter_mask_amended (genes : List String) (m : List (List Nat))
    (mn mx minCells : Nat) :
    ((read_with_filter genes m mn mx minCells).2.length =
      ((List.range genes.length).filter
        (fun j => geneQuery (cellFilterN mn mx m) minCells j)).length) ∧
    (∀ j < genes.length,
      (geneMask (cellFilterN mn mx m) minCells genes.length).getD j false =
        decide (minCells ≤ colValueSum (cellFilterN mn mx m) j)) ∧
    ((read_with_filter genes m mn mx minCells).1 =
      (cellFilterN mn mx m).map
        (fun r => applyMask r (geneMask (cellFilterN mn mx m) minCells genes.length))) ∧
    ((read_with_filter genes m mn mx minCells).2 =
      applyMask genes (geneMask (cellFilterN mn mx m) minCells genes.length)) ∧
    (minCells = 1 →
      (read_with_filter genes m mn mx minCells).2.length =
        ((List.range genes.length).filter
          (fun j => decide (∃ r ∈ cellFilterN mn mx m, 0 < r.getD j 0))).length) := by
  have hmask_len : ∀ mc : Nat,
      (geneMask (cellFilterN mn mx m) mc genes.length).length = genes.length := by
    intro mc
    simp [geneMask]
  have hlen : ∀ mc : Nat,
      (read_with_filter genes m mn mx mc).2.length =
        ((List.range genes.length).filter
          (fun j => geneQuery (cellFilterN mn mx m) mc j)).length := by
    intro mc
    have ha : (read_with_filter genes m mn mx mc).2 =
        applyMask genes (geneMask (cellFilterN mn mx m) mc genes.length) := rfl
    rw [ha, applyMask_length _ _ (hmask_len mc), geneMask, List.filter_map]
    simp [Function.comp]
  have hkey : ∀ j : Nat,
      (1 ≤ colValueSum (cellFilterN mn mx m) j ↔
        ∃ r ∈ cellFilterN mn mx m, 0 < r.getD j 0) := by
    intro j
    rw [colValueSum]
    constructor
    · intro h
      by_contra hno
      push_neg at hno
      have hz : ((cellFilterN mn mx m).map (fun r => r.getD j 0)).sum = 0 := by
        apply List.sum_eq_zero
        intro x hx
        obtain ⟨r, hr, hxe⟩ := List.mem_map.mp hx
        have := hno r hr
        omega
      omega
    · rintro ⟨r, hr, hpos⟩
      have hmem : r.getD j 0 ∈ (cellFilterN mn mx m).map (fun r => r.getD j 0) :=
        List.mem_map.mpr ⟨r, hr, rfl⟩
      have := List.single_le_sum
        (by intro x hx; omega : ∀ x ∈ (cellFilterN mn mx m).map (fun r => r.getD j 0), 0 ≤ x)
        _ hmem
      omega
  refine ⟨hlen minCells, fun j hj => ?_, rfl, rfl, fun hmc => ?_⟩
  · have hr : (List.range genes.length).getD j 0 = j := by
      rw [List.getD_eq_getElem?_getD, List.getElem?_range hj]
      rfl
    rw [geneMask, getD_map_of_lt _ _ _ _ 0 (by simpa using hj), hr]
    rfl
  · subst hmc
    rw [hlen 1]
    congr 1
    apply List.filter_congr
    intro j hj
    exact decide_eq_decide.mpr (hkey j)

/-- Witness for C3: gene list `["g0", "g1"]`, matrix `[[1, 0]]` with
`min_cells = 1`: the returned gene list length equals the number of columns
with a surviving nonzero entry. -/
theorem read_with_filter_mask_amended_witness :
    (read_with_filter ["g0", "g1"] [[1, 0]] 0 10 1).2.length =
      ((List.range (["g0", "g1"] : List String).length).filter
        (fun j => decide (∃ r ∈ cellFilterN 0 10 [[1, 0]], 0 < r.getD j 0))).length :=
  (read_with_filter_mask_amended ["g0", "g1"] [[1, 0]] 0 10 1).2.2.2.2 rfl

/-- C9 (counterexample): with `n_top_peaks = 0` on a 1x1 matrix,
`filter_peaks` retains column 0 — Python's slice `l[-0:]` is the WHOLE list —
instead of the "exactly 0 columns" the claim's range `0 ≤ n_top_peaks` would
require. -/
theorem filter_peaks_zero_cex :
    filter_peaks_use [[(1 : ℚ)]] 0 = [0] := by
  norm_num [filter_peaks_use, pyTailSlice, argsortAsc, freqList, ncolsQ, List.range_succ]

/-- C9 (amended): for `1 ≤ n_top_peaks ≤ ncols`, `filter_peaks` retains
exactly `n_top_peaks` columns — the tail of the stable ascending argsort of
the per-column nonzero frequencies — every retained column's frequency is at
least every dropped column's frequency, and the output is the corresponding
column slice of the input; on the spec's 5x4 example with frequencies
`[0.2, 0.8, 0.4, 0.6]` and `n_top_peaks = 2` the retained columns are `[3, 1]`
(the set `{1, 3}`).  For `n_top_peaks = 0` the code instead retains every
column (Python `l[-0:]`). -/
theorem filter_peaks_top_n_amended (m : List (List ℚ)) (nTop : Nat)
    (h1 : 1 ≤ nTop) (h2 : nTop ≤ ncolsQ m) :
    (filter_peaks_use m nTop).length = nTop ∧
    filter_peaks_use m nTop = (argsortAsc (freqList m)).drop (ncolsQ m - nTop) ∧
    (∀ j ∈ filter_peaks_use m nTop,
      ∀ k ∈ (argsortAsc (freqList m)).take (ncolsQ m - nTop),
        (freqList m).getD k 0 ≤ (freqList m).getD j 0) ∧
    filter_peaks m nTop =
      m.map (fun r => (filter_peaks_use m nTop).map (fun j => r.getD j 0)) ∧
    filter_peaks_use
      [[(1 : ℚ), 1, 1, 1], [0, 1, 1, 1], [0, 1, 0, 1], [0, 1, 0, 0], [0, 0, 0, 0]] 2 =
      [3, 1] := by
  have hlen_arg : (argsortAsc (freqList m)).length = ncolsQ m := by
    rw [argsortAsc, (List.perm_insertionSort _ _).length_eq, List.length_range,
      freqList, List.length_map, List.length_range]
  have huse : filter_peaks_use m nTop = (argsortAsc (freqList m)).drop (ncolsQ m - nTop) := by
    rw [filter_peaks_use, pyTailSlice, if_neg (by omega), hlen_arg]
  refine ⟨?_, huse, ?_, rfl, ?_⟩
  · rw [huse, List.length_drop, hlen_arg]
    omega
  · intro j hj k hk
    have hsorted :
        List.Sorted (fun a b => (freqList m).getD a 0 ≤ (freqList m).getD b 0)
          (argsortAsc (freqList m)) := by
      haveI : IsTotal Nat (fun a b => (freqList m).getD a 0 ≤ (freqList m).getD b 0) :=
        ⟨fun a b => le_total _ _⟩
      haveI : IsTrans Nat (fun a b => (freqList m).getD a 0 ≤ (freqList m).getD b 0) :=
        ⟨fun a b c hab hbc => le_trans hab hbc⟩
      exact List.sorted_insertionSort _ _
    rw [huse] at hj
    have hsplit : argsortAsc (freqList m) =
        (argsortAsc (freqList m)).take (ncolsQ m - nTop) ++
        (argsortAsc (freqList m)).drop (ncolsQ m - nTop) :=
      (List.take_append_drop _ _).symm
    rw [hsplit] at hsorted
    exact (List.pairwise_append.mp hsorted).2.2 k hk j hj
  · norm_num [filter_peaks_use, pyTailSlice, argsortAsc, freqList, ncolsQ,
      peakFrequency, peakCount, List.range_succ]

/-- Witness for C9: the spec's 5x4 example with `n_top_peaks = 2` retains
exactly 2 columns. -/
theorem filter_peaks_top_n_amended_witness :
    1 ≤ 2 ∧
    2 ≤ ncolsQ [[(1 : ℚ), 1, 1, 1], [0, 1, 1, 1], [0, 1, 0, 1], [0, 1, 0, 0], [0, 0, 0, 0]] ∧
    (filter_peaks_use
      [[(1 : ℚ), 1, 1, 1], [0, 1, 1, 1], [0, 1, 0, 1], [0, 1, 0, 0], [0, 0, 0, 0]] 2).length =
      2 :=
  ⟨by decide, by decide,
    (filter_peaks_top_n_amended
      [[(1 : ℚ), 1, 1, 1], [0, 1, 1, 1], [0, 1, 0, 1], [0, 1, 0, 0], [0, 0, 0, 0]] 2
      (by decide) (by decide)).1⟩
